import Mathlib

/-!
Shallow embedding of the lump-resolution and picture-decoding core of the
`wadlauncher` repository (`src/wad.rs`, with the identical copies in
`src/main.rs`, and `App::load_titlepic` in `src/app/mod.rs`).

Byte buffers (`&[u8]` / `Vec<u8>`) are modelled as `List Nat`; where byte-ness
matters a theorem carries the hypothesis that every element is `< 256`.
Rust slice indexing panics when the index is out of range, so every fallible
access goes through `idx` / `setIdx`, and each function whose Rust original
can panic returns a `PanicOr` value: `PanicOr.panic` is a Rust panic
(index/slice out of bounds), `PanicOr.ok` a normal return.
-/

namespace Wadlauncher

/-- Result of running a piece of Rust code that may panic: `panic` models an
unwinding panic (e.g. slice index out of bounds), `ok` a normal result. -/
inductive PanicOr (α : Type) where
  | panic : PanicOr α
  | ok : α → PanicOr α
deriving DecidableEq, Repr

/-- Rust slice read `l[i]`: the value when `i` is in bounds, a panic otherwise. -/
def idx (l : List Nat) (i : Nat) : PanicOr Nat :=
  if i < l.length then .ok (l.getD i 0) else .panic

/-- Rust slice write `l[i] = v`: the updated list when `i` is in bounds, a
panic otherwise. -/
def setIdx (l : List Nat) (i : Nat) (v : Nat) : PanicOr (List Nat) :=
  if i < l.length then .ok (l.set i v) else .panic

/-- `u32::from_le_bytes` applied to the four bytes of `data` starting at `i`
(`decode_titlepic` only calls it with all four indices in bounds, so the
reads are modelled with `getD`). -/
def readU32LE (data : List Nat) (i : Nat) : Nat :=
  data.getD i 0 + data.getD (i + 1) 0 * 256 + data.getD (i + 2) 0 * 65536 +
    data.getD (i + 3) 0 * 16777216

/-- The inner pixel loop of `decode_titlepic` (`src/wad.rs` lines 72-80):
`for y in y_start..(y_start + n_pixels)` reading one palette index per
iteration and writing one RGBA pixel.  Rust evaluates the right-hand side of
each assignment (the palette read) before the left-hand-side place (the `out`
write), which is the order reproduced here.  The loop advances the read
cursor by one per pixel, so it ends at `pos + n_pixels`; the caller accounts
for that displacement, and this function returns the updated buffer. -/
def drawPost (data palette : List Nat) (width x : Nat) :
    Nat → Nat → Nat → List Nat → PanicOr (List Nat)
  | 0, _, _, out => .ok out
  | n + 1, y, pos, out =>
    match idx data pos with
    | .panic => .panic
    | .ok pal_idx =>
      match idx palette (pal_idx * 3) with
      | .panic => .panic
      | .ok r =>
        match setIdx out ((y * width + x) * 4) r with
        | .panic => .panic
        | .ok out1 =>
          match idx palette (pal_idx * 3 + 1) with
          | .panic => .panic
          | .ok g =>
            match setIdx out1 ((y * width + x) * 4 + 1) g with
            | .panic => .panic
            | .ok out2 =>
              match idx palette (pal_idx * 3 + 2) with
              | .panic => .panic
              | .ok b =>
                match setIdx out2 ((y * width + x) * 4 + 2) b with
                | .panic => .panic
                | .ok out3 =>
                  match setIdx out3 ((y * width + x) * 4 + 3) 16 with
                  | .panic => .panic
                  | .ok out4 => drawPost data palette width x n (y + 1) (pos + 1) out4

/-- The `loop` over one column of `decode_titlepic` (`src/wad.rs` lines 62-82):
stops with the buffer unchanged-so-far when the cursor is at or past the end
of `data` or the `start_row` byte is the 255 sentinel; otherwise reads the
run length at `pos + 1` (a read that panics when `pos + 1` is out of bounds,
exactly as `data[pos + 1]` does), advances past the three header bytes,
draws the post's pixels (the pixel loop moves the cursor one byte per
pixel), skips the trailing unused byte and continues at
`pos + 3 + n_pixels + 1`. -/
def decodeColumn (data palette : List Nat) (width x : Nat) (pos : Nat)
    (out : List Nat) : PanicOr (List Nat) :=
  if _hpos : data.length ≤ pos then .ok out
  else if data.getD pos 0 = 255 then .ok out
  else
    match idx data (pos + 1) with
    | .panic => .panic
    | .ok n_pixels =>
      match drawPost data palette width x n_pixels (data.getD pos 0)
          (pos + 3) out with
      | .panic => .panic
      | .ok out' => decodeColumn data palette width x (pos + 3 + n_pixels + 1) out'
termination_by data.length - pos
decreasing_by omega

/-- The outer `for x in 0..width` loop of `decode_titlepic` (`src/wad.rs`
lines 60-83), starting each column at its entry of the offset table. -/
def decodeColumns (data palette : List Nat) (width : Nat)
    (col_offsets : List Nat) (x : Nat) (out : List Nat) : PanicOr (List Nat) :=
  if x < width then
    match decodeColumn data palette width x (col_offsets.getD x 0) out with
    | .panic => .panic
    | .ok out' => decodeColumns data palette width col_offsets (x + 1) out'
  else .ok out
termination_by width - x

/-- `decode_titlepic` (`src/wad.rs` lines 41-85): allocates a zeroed RGBA
buffer of `width * height * 4` bytes, returns `None` when `data` cannot hold
the `width * 4`-byte column-offset table, otherwise reads the offset table
(all reads in bounds thanks to the length check) and decodes every column. -/
def decode_titlepic (data palette : List Nat) (width height : Nat) :
    PanicOr (Option (List Nat)) :=
  if data.length < width * 4 then .ok none
  else
    let col_offsets := (List.range width).map (fun i => readU32LE data (i * 4))
    match decodeColumns data palette width col_offsets 0
        (List.replicate (width * height * 4) 0) with
    | .panic => .panic
    | .ok out => .ok (some out)

/-- One iteration of the `decode_htitle` loop (`src/wad.rs` lines 93-97):
reads the three palette channels of one pixel (panicking when the palette is
too short, as the Rust indexing does) and yields its four RGBA bytes. -/
def htitle_pixel (palette : List Nat) (b : Nat) : PanicOr (List Nat) :=
  match idx palette (b * 3) with
  | .panic => .panic
  | .ok r =>
    match idx palette (b * 3 + 1) with
    | .panic => .panic
    | .ok g =>
      match idx palette (b * 3 + 2) with
      | .panic => .panic
      | .ok bl => .ok [r, g, bl, 16]

/-- The full `for i in 0..(320 * 200)` loop of `decode_htitle`: pixel `i` of
the output is the RGBA block produced from byte `i` of the input.  The Rust
loop writes blocks `i*4 .. i*4+3` of a preallocated buffer in increasing
order of `i`; concatenating per-pixel blocks yields the same buffer and the
same first panic. -/
def htitle_pixels (palette : List Nat) : List Nat → PanicOr (List Nat)
  | [] => .ok []
  | b :: rest =>
    match htitle_pixel palette b with
    | .panic => .panic
    | .ok px =>
      match htitle_pixels palette rest with
      | .panic => .panic
      | .ok tail => .ok (px ++ tail)

/-- `decode_htitle` (`src/wad.rs` lines 87-99): `None` unless the input is
exactly `320 * 200` bytes, otherwise the row-major RGBA expansion of the
palette indices. -/
def decode_htitle (data palette : List Nat) : PanicOr (Option (List Nat)) :=
  if data.length ≠ 320 * 200 then .ok none
  else
    match htitle_pixels palette data with
    | .panic => .panic
    | .ok out => .ok (some out)

/-- `get_titlepic_dimensions` (`src/wad.rs` lines 30-39): reads a
little-endian u16 width from bytes 0-1 and height from bytes 2-3 (each of
the four reads `data[0] .. data[3]` panics when out of range, hence the
panic for any buffer shorter than 4 bytes), then falls back to `(320, 200)`
when either is zero or the buffer cannot hold the offset table. -/
def get_titlepic_dimensions (data : List Nat) : PanicOr (Nat × Nat) :=
  if 4 ≤ data.length then
    let width := data.getD 0 0 + data.getD 1 0 * 256
    let height := data.getD 2 0 + data.getD 3 0 * 256
    if width = 0 ∨ height = 0 ∨ data.length < 4 + width * 4 then .ok (320, 200)
    else .ok (width, height)
  else .panic

/-- An opened WAD archive, as the repository uses the external `wad` crate:
a directory of named lumps, looked up by name.  A candidate path argument of
the loader functions becomes `Option Wad`: `none` when `wad::load_wad_file`
fails (missing/unreadable file), `some` the opened archive. -/
def Wad := List (String × List Nat)

/-- The `wad` crate's `by_id` as the repository relies on it: the data of the
first lump whose name matches. -/
def by_id (w : Wad) (id : String) : Option (List Nat) :=
  (List.find? (fun e => e.1 == id) w).map (fun e => e.2)

/-- One candidate of the `load_playpal_lump` loop body: `none` when this
candidate is skipped (no archive or no `PLAYPAL` lump), otherwise the result
of `data[0..768].to_vec()` — which panics when the lump holds fewer than 768
bytes, exactly as Rust range-slicing does. -/
def playpal_step (w : Option Wad) : Option (PanicOr (List Nat)) :=
  match w with
  | none => none
  | some wad =>
    match by_id wad "PLAYPAL" with
    | none => none
    | some data =>
      some (if 768 ≤ data.length then .ok (data.take 768) else .panic)

/-- `load_playpal_lump` (`src/wad.rs` lines 1-10): tries the override (wad)
archive first, then the base (iwad) archive, returning the first 768 bytes
of the first `PLAYPAL` lump found. -/
def load_playpal_lump (iwad_w wad_w : Option Wad) : PanicOr (Option (List Nat)) :=
  match playpal_step wad_w with
  | some .panic => .panic
  | some (.ok d) => .ok (some d)
  | none =>
    match playpal_step iwad_w with
    | some .panic => .panic
    | some (.ok d) => .ok (some d)
    | none => .ok none

/-- The title lump name probe order of `load_titlepic_lump`. -/
def TITLE_LUMPS : List String := ["TITLEPIC", "TITLE", "HTITLE"]

/-- The inner loop of `load_titlepic_lump` over one candidate archive: the
first probe name that resolves, paired with its data. -/
def find_title_lump (w : Option Wad) : Option (String × List Nat) :=
  match w with
  | none => none
  | some wad =>
    TITLE_LUMPS.findSome? (fun l => (by_id wad l).map (fun d => (l, d)))

/-- `load_titlepic_lump` (`src/wad.rs` lines 12-28): override (wad) archive
first, then base (iwad); within each archive the names are probed in
`TITLE_LUMPS` order and the first hit is returned tagged with its name. -/
def load_titlepic_lump (iwad_w wad_w : Option Wad) : Option (String × List Nat) :=
  match find_title_lump wad_w with
  | some r => some r
  | none => find_title_lump iwad_w

/-- The `match lump_name.as_str()` dispatch inside `App::load_titlepic`
(`src/app/mod.rs` lines 31-42): legacy names try `decode_htitle` and fall
back to `decode_titlepic` at 320x200; every other name (`"TITLEPIC" | _`)
sniffs dimensions and runs `decode_titlepic` at them.  Yields the
`(width, height, img)` triple, or `none` when the attempted decoders all
return `None` (the `?` early exit). -/
def dispatch_decode (lump_name : String) (titlepic palette : List Nat) :
    PanicOr (Option (Nat × Nat × List Nat)) :=
  if lump_name = "TITLE" ∨ lump_name = "HTITLE" then
    match decode_htitle titlepic palette with
    | .panic => .panic
    | .ok (some img) => .ok (some (320, 200, img))
    | .ok none =>
      match decode_titlepic titlepic palette 320 200 with
      | .panic => .panic
      | .ok (some img) => .ok (some (320, 200, img))
      | .ok none => .ok none
  else
    match get_titlepic_dimensions titlepic with
    | .panic => .panic
    | .ok (width, height) =>
      match decode_titlepic titlepic palette width height with
      | .panic => .panic
      | .ok (some img) => .ok (some (width, height, img))
      | .ok none => .ok none

/-- The slice of `App` state that `App::load_titlepic` touches: the stored
title-image texture.  A texture handle is modelled as the data the code
hands to `ctx.load_texture` — the `[width, height]` pair and the RGBA bytes
of the `ColorImage` (the other `App` fields are GUI/config state the
function never reads or writes). -/
structure AppState where
  titlepic_texture : Option (Nat × Nat × List Nat)
deriving DecidableEq, Repr

/-- `App::load_titlepic` (`src/app/mod.rs` lines 22-47, duplicated at
`src/main.rs` lines 156-183): clears the stored texture, resolves palette
and title lump (each `?` exit returning `None` with the texture still
cleared), dispatches on the lump name, and on success stores the decoded
image as the new texture. -/
def App.load_titlepic (_app : AppState) (iwad_w wad_w : Option Wad) :
    PanicOr (AppState × Option Unit) :=
  let cleared : AppState := { titlepic_texture := none }
  match load_playpal_lump iwad_w wad_w with
  | .panic => .panic
  | .ok none => .ok (cleared, none)
  | .ok (some palette) =>
    match load_titlepic_lump iwad_w wad_w with
    | none => .ok (cleared, none)
    | some (lump_name, titlepic) =>
      match dispatch_decode lump_name titlepic palette with
      | .panic => .panic
      | .ok none => .ok (cleared, none)
      | .ok (some (width, height, img)) =>
        .ok ({ titlepic_texture := some (width, height, img) }, some ())

/-!
Spec-side model of well-formed Primary-format ("patch") pictures: a picture
is a list of columns, each column a list of posts, a post a start row
together with its run of palette indices.  `encode_titlepic` builds the
canonical byte buffer for such a picture — the `width` little-endian u32
column offsets followed by each column's posts, every column terminated by
the 255 sentinel inside the buffer — which is the "buffer built from a known
`(width, height)` and a known post list" of the specification.
-/

/-- A post of a patch column: its start row and its run of palette indices. -/
abbrev Post := Nat × List Nat

/-- The bytes of one post: `start_row`, `run_length`, an unused pad byte,
the pixel palette indices, and a trailing unused pad byte. -/
def encodePost (p : Post) : List Nat :=
  p.1 :: p.2.length :: 0 :: (p.2 ++ [0])

/-- The bytes of one column: its posts in order, then the 255 sentinel. -/
def encodeCol (posts : List Post) : List Nat :=
  ((posts.map encodePost).flatten) ++ [255]

/-- The four little-endian bytes of a u32 value. -/
def u32le (n : Nat) : List Nat :=
  [n % 256, n / 256 % 256, n / 65536 % 256, n / 16777216 % 256]

/-- Offsets of consecutive blocks laid out starting at `base`. -/
def colOffsets (base : Nat) : List (List Nat) → List Nat
  | [] => []
  | b :: rest => base :: colOffsets (base + b.length) rest

/-- The canonical Primary-format buffer of a picture: the column-offset
table, then the encoded columns. -/
def encode_titlepic (cols : List (List Post)) : List Nat :=
  let bodies := cols.map encodeCol
  (((colOffsets (4 * cols.length) bodies).map u32le).flatten) ++ bodies.flatten

/-- A post is in range for a picture of the given height: its start row fits
in a byte and is not the 255 sentinel, its run length fits in a byte, the
rows it covers all lie below `height`, and its pixels are bytes. -/
def PostWF (height : Nat) (p : Post) : Prop :=
  p.1 ≤ 254 ∧ p.2.length ≤ 255 ∧ p.1 + p.2.length ≤ height ∧ ∀ b ∈ p.2, b < 256

/-- All posts of all columns are in range. -/
def ColsWF (height : Nat) (cols : List (List Post)) : Prop :=
  ∀ posts ∈ cols, ∀ p ∈ posts, PostWF height p

instance (height : Nat) (p : Post) : Decidable (PostWF height p) := by
  unfold PostWF; infer_instance

instance (height : Nat) (cols : List (List Post)) : Decidable (ColsWF height cols) := by
  unfold ColsWF; infer_instance

/-- Channel `c` (0 = R, 1 = G, 2 = B, 3 = A) of the RGBA pixel that the
decoder writes for palette index `b`: the palette triple with the fixed
alpha 16. -/
def pixelColor (palette : List Nat) (b c : Nat) : Nat :=
  if c = 3 then 16 else palette.getD (b * 3 + c) 0

/-- Functional form of the four in-bounds buffer writes of one pixel:
RGB from the palette and alpha 16 at positions `dst .. dst + 3`. -/
def setPix (palette out : List Nat) (dst b : Nat) : List Nat :=
  (((out.set dst (palette.getD (b * 3) 0)).set (dst + 1)
      (palette.getD (b * 3 + 1) 0)).set (dst + 2)
      (palette.getD (b * 3 + 2) 0)).set (dst + 3) 16

/-- Functional form of drawing one post into the output buffer. -/
def writePost (palette : List Nat) (width x : Nat) :
    Nat → List Nat → List Nat → List Nat
  | _, [], out => out
  | start, b :: rest, out =>
      writePost palette width x (start + 1) rest
        (setPix palette out ((start * width + x) * 4) b)

/-- Functional form of drawing all posts of one column, in order. -/
def renderCol (palette : List Nat) (width x : Nat) :
    List Post → List Nat → List Nat
  | [], out => out
  | p :: rest, out =>
      renderCol palette width x rest (writePost palette width x p.1 p.2 out)

/-- Functional form of drawing the columns `x, x + 1, ..., width - 1`. -/
def renderColsIdx (palette : List Nat) (width : Nat)
    (cols : List (List Post)) (x : Nat) (out : List Nat) : List Nat :=
  if x < width then
    renderColsIdx palette width cols (x + 1)
      (renderCol palette width x (cols.getD x []) out)
  else out
termination_by width - x

/-- The palette index that the posts of one column leave at row `y`: the
value of the last post covering `y` (later posts overwrite earlier ones,
matching the decoder's write order), or `none` when no post covers `y`. -/
def postAt (posts : List Post) (y : Nat) : Option Nat :=
  posts.foldl
    (fun acc p =>
      if p.1 ≤ y ∧ y < p.1 + p.2.length then some (p.2.getD (y - p.1) 0)
      else acc)
    none




/-!
Helper lemmas shared by several results.
-/

theorem decodeColumn_past_end (data palette : List Nat) (width x pos : Nat)
    (out : List Nat) (h : data.length ≤ pos) :
    decodeColumn data palette width x pos out = .ok out := by
  rw [decodeColumn, dif_pos h]

theorem decodeColumns_offsets_past_end (data palette : List Nat) (width : Nat)
    (col_offsets : List Nat) :
    ∀ (n x : Nat) (out : List Nat), width - x ≤ n →
      (∀ i, x ≤ i → i < width → data.length ≤ col_offsets.getD i 0) →
      decodeColumns data palette width col_offsets x out = .ok out := by
  intro n
  induction n with
  | zero =>
    intro x out hn _
    rw [decodeColumns, if_neg (by omega)]
  | succ n ih =>
    intro x out hn hoff
    rw [decodeColumns]
    by_cases hx : x < width
    · rw [if_pos hx,
        decodeColumn_past_end data palette width x (col_offsets.getD x 0) out
          (hoff x le_rfl hx)]
      exact ih (x + 1) out (by omega) (fun i h1 h2 => hoff i (by omega) h2)
    · rw [if_neg hx]

/-- C7: for every palette, every `(width, height)` and every input buffer
shorter than `width * 4` bytes, `decode_titlepic` returns `None`; and the
result depends only on the length of the buffer, not its contents (nor on
the palette or height), so no out-of-bounds read of the input can occur. -/
theorem decode_titlepic_short_buffer (data palette : List Nat)
    (width height : Nat) (h : data.length < width * 4) :
    decode_titlepic data palette width height = .ok none ∧
    ∀ (data' palette' : List Nat) (height' : Nat), data'.length = data.length →
      decode_titlepic data' palette' width height' = .ok none := by
  refine ⟨by rw [decode_titlepic, if_pos h], ?_⟩
  intro data' palette' height' hlen
  rw [decode_titlepic, if_pos (by omega)]

theorem decode_titlepic_short_buffer_witness :
    ([1, 2, 3] : List Nat).length < 1 * 4 ∧
      decode_titlepic [1, 2, 3] [] 1 200 = .ok none :=
  ⟨by norm_num,
    (decode_titlepic_short_buffer [1, 2, 3] [] 1 200 (by norm_num)).1⟩

/-- C4 (amended): for every buffer of at least 4 bytes,
`get_titlepic_dimensions` returns the fallback `(320, 200)` exactly when the
little-endian u16 width or height read from bytes 0..4 is zero or the buffer
cannot hold the `4 + width * 4`-byte header, and returns `(width, height)`
unchanged otherwise; a buffer shorter than 4 bytes makes the header reads
panic instead of producing the fallback. -/
theorem get_titlepic_dimensions_spec :
    (∀ data : List Nat, 4 ≤ data.length →
      (data.getD 0 0 + data.getD 1 0 * 256 = 0 ∨
        data.getD 2 0 + data.getD 3 0 * 256 = 0 ∨
        data.length < 4 + (data.getD 0 0 + data.getD 1 0 * 256) * 4) →
      get_titlepic_dimensions data = .ok (320, 200)) ∧
    (∀ data : List Nat, 4 ≤ data.length →
      data.getD 0 0 + data.getD 1 0 * 256 ≠ 0 →
      data.getD 2 0 + data.getD 3 0 * 256 ≠ 0 →
      4 + (data.getD 0 0 + data.getD 1 0 * 256) * 4 ≤ data.length →
      get_titlepic_dimensions data =
        .ok (data.getD 0 0 + data.getD 1 0 * 256,
             data.getD 2 0 + data.getD 3 0 * 256)) ∧
    (∀ data : List Nat, data.length < 4 →
      get_titlepic_dimensions data = .panic) := by
  refine ⟨?_, ?_, ?_⟩
  · intro data h1 h2
    rw [get_titlepic_dimensions, if_pos h1]
    exact if_pos h2
  · intro data h1 hw hh hlen
    rw [get_titlepic_dimensions, if_pos h1]
    exact if_neg (by push_neg; exact ⟨hw, hh, by omega⟩)
  · intro data h1
    rw [get_titlepic_dimensions, if_neg (by omega)]

theorem get_titlepic_dimensions_spec_witness :
    get_titlepic_dimensions [1, 0, 2, 0, 9, 9, 9, 9] = .ok (1, 2) ∧
    get_titlepic_dimensions [0, 0, 2, 0] = .ok (320, 200) := by
  constructor
  · have h := get_titlepic_dimensions_spec.2.1 [1, 0, 2, 0, 9, 9, 9, 9]
      (by norm_num) (by norm_num [List.getD]) (by norm_num [List.getD])
      (by norm_num [List.getD])
    simpa [List.getD] using h
  · have h := get_titlepic_dimensions_spec.1 [0, 0, 2, 0]
      (by norm_num) (by norm_num [List.getD])
    exact h

/-- C4 counterexample: the claim says `get_titlepic_dimensions` never fails,
even for buffers shorter than 4 bytes; on the empty buffer the Rust code
evaluates `data[0]` and panics. -/
theorem get_titlepic_dimensions_short_buffer_panics :
    get_titlepic_dimensions [] = .panic := by
  rw [get_titlepic_dimensions, if_neg (by norm_num)]

set_option maxRecDepth 4000 in
/-- C1: the decoder has no `row < height` bounds check before its pixel
writes.  On a 1x1 picture whose single post starts at row 1 with one pixel,
the write for row 1 indexes position `(1 * 1 + 0) * 4 = 4` of the 4-byte
output buffer and panics — it does not skip the out-of-range row.  (Buffer
layout: offset table `[4, 0, 0, 0]`, then the post `start_row = 1`,
`run_length = 1`, pad, pixel index 9.) -/
theorem decode_titlepic_out_of_range_row_panics :
    decode_titlepic [4, 0, 0, 0, 1, 1, 0, 9] (List.replicate 768 0) 1 1 =
      .panic := by
  rw [decode_titlepic]
  norm_num
  rw [decodeColumns]
  norm_num [readU32LE]
  rw [decodeColumn]
  norm_num [idx]
  rw [show drawPost [4, 0, 0, 0, 1, 1, 0, 9] (List.replicate 768 0) 1 0 1 1
      7 (List.replicate 4 0) = PanicOr.panic from by decide]

/-- C3 counterexample: a column truncated right after a post's `start_row`
byte (the buffer `[4, 0, 0, 0, 0]`: offset table pointing at position 4,
then a lone `start_row = 0`).  The claim says decoding stops the column
early; the code instead evaluates `data[pos + 1]` at position 5 of a 5-byte
buffer and panics. -/
theorem decode_titlepic_truncated_mid_post_panics :
    decode_titlepic [4, 0, 0, 0, 0] (List.replicate 768 0) 1 200 = .panic := by
  rw [decode_titlepic]
  norm_num
  rw [decodeColumns]
  norm_num [readU32LE]
  rw [decodeColumn]
  norm_num [idx]

/-- C3 (amended): `decode_titlepic` stops a column early, without failing,
when the read position runs past the buffer end at a post boundary — before
a post's `start_row` byte is read.  In particular, when every column offset
points at or past the end of the buffer the decoder returns the
all-transparent image.  (Truncation strictly inside a post — after
`start_row` has been read — panics instead, see the counterexample.) -/
theorem decode_titlepic_truncation_post_boundary :
    (∀ (data palette : List Nat) (width x pos : Nat) (out : List Nat),
      data.length ≤ pos →
      decodeColumn data palette width x pos out = .ok out) ∧
    (∀ (data palette : List Nat) (width height : Nat),
      width * 4 ≤ data.length →
      (∀ i, i < width → data.length ≤ readU32LE data (i * 4)) →
      decode_titlepic data palette width height =
        .ok (some (List.replicate (width * height * 4) 0))) := by
  refine ⟨decodeColumn_past_end, ?_⟩
  intro data palette width height h1 h2
  rw [decode_titlepic, if_neg (by omega)]
  have hoff : ∀ i, 0 ≤ i → i < width →
      data.length ≤
        (List.map (fun i => readU32LE data (i * 4)) (List.range width)).getD i 0 := by
    intro i _ hi
    rw [List.getD_eq_getElem _ _ (by simpa using hi)]
    simpa using h2 i hi
  show (match decodeColumns data palette width
      (List.map (fun i => readU32LE data (i * 4)) (List.range width)) 0
      (List.replicate (width * height * 4) 0) with
    | PanicOr.panic => PanicOr.panic
    | PanicOr.ok out => PanicOr.ok (some out)) =
    PanicOr.ok (some (List.replicate (width * height * 4) 0))
  rw [decodeColumns_offsets_past_end data palette width _ width 0
    (List.replicate (width * height * 4) 0) (by omega) hoff]

theorem decode_titlepic_truncation_post_boundary_witness :
    decode_titlepic [9, 9, 9, 9] [] 1 1 = .ok (some (List.replicate 4 0)) := by
  have h := decode_titlepic_truncation_post_boundary.2 [9, 9, 9, 9] [] 1 1
    (by norm_num)
    (by
      intro i hi
      interval_cases i
      norm_num [readU32LE, List.getD])
  simpa using h

/-- C5 (amended): `load_playpal_lump` returns exactly the first 768 bytes of
the first `PLAYPAL` entry found (override archive first, base archive
second; entries may be longer), provided that entry holds at least 768
bytes, and returns nothing when no candidate archive yields an entry; but a
found entry shorter than 768 bytes makes the slice `data[0..768]` panic —
it is not folded into the no-image outcome. -/
theorem load_playpal_lump_spec :
    (∀ (iw : Option Wad) (w : Wad) (d : List Nat),
      by_id w "PLAYPAL" = some d → 768 ≤ d.length →
      load_playpal_lump iw (some w) = .ok (some (d.take 768)) ∧
        (d.take 768).length = 768) ∧
    (∀ (iw : Wad) (ww : Option Wad) (d : List Nat),
      playpal_step ww = none →
      by_id iw "PLAYPAL" = some d → 768 ≤ d.length →
      load_playpal_lump (some iw) ww = .ok (some (d.take 768))) ∧
    (∀ iw ww : Option Wad,
      playpal_step ww = none → playpal_step iw = none →
      load_playpal_lump iw ww = .ok none) ∧
    (∀ (iw : Option Wad) (w : Wad) (d : List Nat),
      by_id w "PLAYPAL" = some d → d.length < 768 →
      load_playpal_lump iw (some w) = .panic) := by
  refine ⟨?_, ?_, ?_, ?_⟩
  · intro iw w d hfind hlen
    refine ⟨?_, by simp [List.length_take]; omega⟩
    rw [load_playpal_lump]
    simp only [playpal_step, hfind, if_pos hlen]
  · intro iw ww d hww hfind hlen
    rw [load_playpal_lump]
    rw [hww]
    simp only [playpal_step, hfind, if_pos hlen]
  · intro iw ww hww hiw
    rw [load_playpal_lump]
    simp only [hww, hiw]
  · intro iw w d hfind hlen
    rw [load_playpal_lump]
    simp only [playpal_step, hfind, if_neg (by omega : ¬768 ≤ d.length)]

theorem load_playpal_lump_spec_witness :
    768 ≤ (List.replicate 800 5).length ∧
    load_playpal_lump none (some [("PLAYPAL", List.replicate 800 5)]) =
      .ok (some (List.take 768 (List.replicate 800 5))) :=
  ⟨by rw [List.length_replicate]; norm_num,
    (load_playpal_lump_spec.1 none [("PLAYPAL", List.replicate 800 5)]
      (List.replicate 800 5) rfl (by rw [List.length_replicate]; norm_num)).1⟩

/-- C5 counterexample: an override archive whose `PLAYPAL` entry is empty.
The claim says a short palette entry is folded into the "no image" outcome;
the code slices `data[0..768]` out of range and panics. -/
theorem load_playpal_lump_short_entry_panics :
    load_playpal_lump none (some [("PLAYPAL", [])]) = .panic := by decide

/-- C8: `load_titlepic_lump` searches the override (wad) archive before the
base (iwad) archive; within one archive the names are probed in the order
`TITLEPIC`, `TITLE`, `HTITLE` and the first hit is returned tagged with its
name; and when the override archive carries only a legacy-named entry while
the base archive carries the primary-named one, the override's legacy entry
wins. -/
theorem load_titlepic_lump_priority :
    (∀ (iw ww : Option Wad) (r : String × List Nat),
      find_title_lump ww = some r → load_titlepic_lump iw ww = some r) ∧
    (∀ (iw : Option Wad) (ww : Option Wad),
      find_title_lump ww = none → load_titlepic_lump iw ww = find_title_lump iw) ∧
    (∀ (w : Wad) (d : List Nat), by_id w "TITLEPIC" = some d →
      find_title_lump (some w) = some ("TITLEPIC", d)) ∧
    (∀ (w : Wad) (d : List Nat), by_id w "TITLEPIC" = none →
      by_id w "TITLE" = some d →
      find_title_lump (some w) = some ("TITLE", d)) ∧
    (∀ (w : Wad) (d : List Nat), by_id w "TITLEPIC" = none →
      by_id w "TITLE" = none → by_id w "HTITLE" = some d →
      find_title_lump (some w) = some ("HTITLE", d)) ∧
    (∀ d d' : List Nat,
      load_titlepic_lump (some [("TITLEPIC", d')]) (some [("TITLE", d)]) =
        some ("TITLE", d)) := by
  refine ⟨?_, ?_, ?_, ?_, ?_, ?_⟩
  · intro iw ww r h
    rw [load_titlepic_lump, h]
  · intro iw ww h
    rw [load_titlepic_lump, h]
  · intro w d h
    simp [find_title_lump, TITLE_LUMPS, List.findSome?_cons, h]
  · intro w d h1 h2
    simp [find_title_lump, TITLE_LUMPS, List.findSome?_cons, h1, h2]
  · intro w d h1 h2 h3
    simp [find_title_lump, TITLE_LUMPS, List.findSome?_cons, h1, h2, h3]
  · intro d d'
    rw [load_titlepic_lump]
    simp [find_title_lump, TITLE_LUMPS, List.findSome?_cons, by_id]

theorem load_titlepic_lump_priority_witness :
    load_titlepic_lump (some [("TITLEPIC", [7])]) (some [("HTITLE", [9])]) =
      some ("HTITLE", [9]) :=
  load_titlepic_lump_priority.1 (some [("TITLEPIC", [7])])
    (some [("HTITLE", [9])]) ("HTITLE", [9]) (by decide)

/-- C10: `App::load_titlepic` clears the stored texture before any palette
or lump lookup: whenever the call fails (returns `None`) — missing palette,
missing title lump, or decoder failure — the stored texture afterwards is
`none`; and the result never depends on the previously stored texture. -/
theorem load_titlepic_clears_texture :
    (∀ (app : AppState) (iw ww : Option Wad) (app' : AppState),
      App.load_titlepic app iw ww = .ok (app', none) →
      app'.titlepic_texture = none) ∧
    (∀ (app₁ app₂ : AppState) (iw ww : Option Wad),
      App.load_titlepic app₁ iw ww = App.load_titlepic app₂ iw ww) := by
  constructor
  · intro app iw ww app' h
    rw [App.load_titlepic] at h
    repeat' split at h
    all_goals try (exact PanicOr.noConfusion h)
    all_goals (injection h with h1; injection h1 with ha hb)
    all_goals try (exact Option.noConfusion hb)
    all_goals (subst ha; rfl)
  · intro app₁ app₂ iw ww
    rfl

theorem load_titlepic_clears_texture_witness :
    App.load_titlepic ⟨some (1, 1, [0, 0, 0, 16])⟩ none none =
      .ok (⟨none⟩, none) ∧
    AppState.titlepic_texture ⟨none⟩ = none :=
  ⟨by decide,
    load_titlepic_clears_texture.1 ⟨some (1, 1, [0, 0, 0, 16])⟩ none none
      ⟨none⟩ (by decide)⟩

theorem flatten_length_uniform (L : List (List Nat)) (B : Nat)
    (hB : ∀ b ∈ L, b.length = B) : L.flatten.length = L.length * B := by
  induction L with
  | nil => simp
  | cons hd tl ih =>
    simp only [List.flatten_cons, List.length_append, List.length_cons]
    rw [hB hd (List.mem_cons_self hd tl),
      ih (fun b hb => hB b (List.mem_cons_of_mem hd hb))]
    ring

theorem flatten_getD_uniform (B : Nat) :
    ∀ (L : List (List Nat)) (i k : Nat), (∀ b ∈ L, b.length = B) →
      i < L.length → k < B →
      L.flatten.getD (i * B + k) 0 = (L.getD i []).getD k 0 := by
  intro L
  induction L with
  | nil => intro i k _ hi _; simp at hi
  | cons hd tl ih =>
    intro i k hB hi hk
    have hhd : hd.length = B := hB hd (List.mem_cons_self hd tl)
    cases i with
    | zero =>
      simp only [List.flatten_cons, Nat.zero_mul, Nat.zero_add, List.getD_cons_zero]
      exact List.getD_append hd tl.flatten 0 k (by omega)
    | succ i =>
      simp only [List.flatten_cons, List.getD_cons_succ]
      rw [List.getD_append_right hd tl.flatten 0 ((i + 1) * B + k)
        (by rw [hhd, Nat.succ_mul]; omega)]
      rw [show (i + 1) * B + k - hd.length = i * B + k by
        rw [hhd, Nat.succ_mul]; omega]
      exact ih i k (fun b hb => hB b (List.mem_cons_of_mem hd hb))
        (by simpa using hi) hk

theorem getD_map_block (f : Nat → List Nat) (l : List Nat) (i : Nat)
    (hi : i < l.length) : (l.map f).getD i [] = f (l.getD i 0) := by
  rw [List.getD_eq_getElem _ _ (by simpa using hi), List.getElem_map,
    List.getD_eq_getElem _ _ hi]

theorem htitle_pixels_ok (palette data : List Nat)
    (hpal : 768 ≤ palette.length) (hb : ∀ b ∈ data, b < 256) :
    htitle_pixels palette data =
      .ok ((data.map (fun b =>
        [palette.getD (b * 3) 0, palette.getD (b * 3 + 1) 0,
         palette.getD (b * 3 + 2) 0, 16])).flatten) := by
  induction data with
  | nil => rfl
  | cons b rest ih =>
    have hb1 : b < 256 := hb b (List.mem_cons_self b rest)
    rw [htitle_pixels, htitle_pixel]
    simp only [idx, if_pos (show b * 3 < palette.length by omega),
      if_pos (show b * 3 + 1 < palette.length by omega),
      if_pos (show b * 3 + 2 < palette.length by omega)]
    rw [ih (fun x hx => hb x (List.mem_cons_of_mem b hx))]
    simp [List.flatten_cons]

/-- C6: for every palette of at least 768 bytes and every 64000-byte input of
byte values, `decode_htitle` yields a `320 * 200 * 4`-byte buffer whose pixel
`i` carries the palette triple of `data[i]` and alpha 16; for every input of
any other length it returns `None`. -/
theorem decode_htitle_spec (data palette : List Nat)
    (hpal : 768 ≤ palette.length) (hbytes : ∀ b ∈ data, b < 256) :
    (data.length = 64000 →
      ∃ out, decode_htitle data palette = .ok (some out) ∧
        out.length = 320 * 200 * 4 ∧
        ∀ i, i < 320 * 200 →
          out.getD (i * 4) 0 = palette.getD (data.getD i 0 * 3) 0 ∧
          out.getD (i * 4 + 1) 0 = palette.getD (data.getD i 0 * 3 + 1) 0 ∧
          out.getD (i * 4 + 2) 0 = palette.getD (data.getD i 0 * 3 + 2) 0 ∧
          out.getD (i * 4 + 3) 0 = 16) ∧
    (data.length ≠ 64000 → decode_htitle data palette = .ok none) := by
  constructor
  · intro hlen
    have hblock : ∀ bl ∈ data.map (fun b =>
        [palette.getD (b * 3) 0, palette.getD (b * 3 + 1) 0,
         palette.getD (b * 3 + 2) 0, 16]), bl.length = 4 := by
      intro bl hbl
      obtain ⟨b, _, rfl⟩ := List.mem_map.1 hbl
      rfl
    refine ⟨(data.map (fun b =>
        [palette.getD (b * 3) 0, palette.getD (b * 3 + 1) 0,
         palette.getD (b * 3 + 2) 0, 16])).flatten, ?_, ?_, ?_⟩
    · rw [decode_htitle, if_neg (by omega), htitle_pixels_ok palette data hpal hbytes]
    · rw [flatten_length_uniform _ 4 hblock]
      simp only [List.length_map]
      omega
    · intro i hi
      have hi' : i < data.length := by omega
      have hget : ∀ k, k < 4 →
          ((data.map (fun b =>
            [palette.getD (b * 3) 0, palette.getD (b * 3 + 1) 0,
             palette.getD (b * 3 + 2) 0, 16])).flatten).getD (i * 4 + k) 0 =
          ([palette.getD (data.getD i 0 * 3) 0,
            palette.getD (data.getD i 0 * 3 + 1) 0,
            palette.getD (data.getD i 0 * 3 + 2) 0, 16] : List Nat).getD k 0 := by
        intro k hk
        rw [flatten_getD_uniform 4 _ i k hblock (by simpa using hi') hk,
          getD_map_block _ _ _ hi']
      refine ⟨?_, ?_, ?_, ?_⟩
      · simpa using hget 0 (by omega)
      · simpa using hget 1 (by omega)
      · simpa using hget 2 (by omega)
      · simpa using hget 3 (by omega)
  · intro hlen
    rw [decode_htitle, if_pos (by omega)]

theorem decode_htitle_spec_witness :
    decode_htitle [] (List.replicate 768 0) = .ok none :=
  (decode_htitle_spec [] (List.replicate 768 0)
    (by rw [List.length_replicate]) (by simp)).2 (by simp)

/-- C9: for a legacy tag (`TITLE` or `HTITLE`) the dispatcher first tries
`decode_htitle` and, when that yields `None`, tries `decode_titlepic` at the
fixed 320x200; for the `TITLEPIC` tag it sniffs dimensions with
`get_titlepic_dimensions` and runs `decode_titlepic` at them; and when the
attempted decoder(s) yield `None` the whole `App::load_titlepic` call yields
no image (texture cleared, `None` returned) with no further fallback. -/
theorem dispatch_decode_spec :
    (∀ (t : String) (d p img : List Nat), (t = "TITLE" ∨ t = "HTITLE") →
      decode_htitle d p = .ok (some img) →
      dispatch_decode t d p = .ok (some (320, 200, img))) ∧
    (∀ (t : String) (d p img : List Nat), (t = "TITLE" ∨ t = "HTITLE") →
      decode_htitle d p = .ok none →
      decode_titlepic d p 320 200 = .ok (some img) →
      dispatch_decode t d p = .ok (some (320, 200, img))) ∧
    (∀ (t : String) (d p : List Nat), (t = "TITLE" ∨ t = "HTITLE") →
      decode_htitle d p = .ok none →
      decode_titlepic d p 320 200 = .ok none →
      dispatch_decode t d p = .ok none) ∧
    (∀ (d p img : List Nat) (w h : Nat),
      get_titlepic_dimensions d = .ok (w, h) →
      decode_titlepic d p w h = .ok (some img) →
      dispatch_decode "TITLEPIC" d p = .ok (some (w, h, img))) ∧
    (∀ (d p : List Nat) (w h : Nat),
      get_titlepic_dimensions d = .ok (w, h) →
      decode_titlepic d p w h = .ok none →
      dispatch_decode "TITLEPIC" d p = .ok none) ∧
    (∀ (app : AppState) (iw ww : Option Wad) (p : List Nat) (name : String)
        (d : List Nat),
      load_playpal_lump iw ww = .ok (some p) →
      load_titlepic_lump iw ww = some (name, d) →
      dispatch_decode name d p = .ok none →
      App.load_titlepic app iw ww = .ok (⟨none⟩, none)) := by
  refine ⟨?_, ?_, ?_, ?_, ?_, ?_⟩
  · intro t d p img ht h1
    rw [dispatch_decode, if_pos ht, h1]
  · intro t d p img ht h1 h2
    rw [dispatch_decode, if_pos ht, h1, h2]
  · intro t d p ht h1 h2
    rw [dispatch_decode, if_pos ht, h1, h2]
  · intro d p img w h h1 h2
    rw [dispatch_decode, if_neg (by decide), h1]
    show (match decode_titlepic d p w h with
      | PanicOr.panic => PanicOr.panic
      | PanicOr.ok (some img) => PanicOr.ok (some (w, h, img))
      | PanicOr.ok none => PanicOr.ok none) = PanicOr.ok (some (w, h, img))
    rw [h2]
  · intro d p w h h1 h2
    rw [dispatch_decode, if_neg (by decide), h1]
    show (match decode_titlepic d p w h with
      | PanicOr.panic => PanicOr.panic
      | PanicOr.ok (some img) => PanicOr.ok (some (w, h, img))
      | PanicOr.ok none => PanicOr.ok none) = PanicOr.ok none
    rw [h2]
  · intro app iw ww p name d h1 h2 h3
    rw [App.load_titlepic, h1, h2]
    show (match dispatch_decode name d p with
      | PanicOr.panic => PanicOr.panic
      | PanicOr.ok none =>
          PanicOr.ok (({ titlepic_texture := none } : AppState), none)
      | PanicOr.ok (some (width, height, img)) =>
          PanicOr.ok (({ titlepic_texture := some (width, height, img) } :
            AppState), some ())) =
      PanicOr.ok (({ titlepic_texture := none } : AppState), none)
    rw [h3]

theorem dispatch_decode_spec_witness :
    decode_htitle [] [] = .ok none ∧
    decode_titlepic [] [] 320 200 = .ok none ∧
    dispatch_decode "TITLE" [] [] = .ok none :=
  ⟨by decide, by decide,
    dispatch_decode_spec.2.2.1 "TITLE" [] [] (Or.inl rfl) (by decide) (by decide)⟩

/-!
Helper lemmas for the Primary-format round trip (claim C2): list access
facts, injectivity of the RGBA position map, and length preservation of the
functional renderer.
-/

theorem getD_set_eq (l : List Nat) (i v : Nat) (h : i < l.length) :
    (l.set i v).getD i 0 = v := by
  rw [List.getD_eq_getElem _ _ (by simpa using h)]
  simp [List.getElem_set]

theorem getD_set_ne (l : List Nat) (i j v : Nat) (h : i ≠ j) :
    (l.set i v).getD j 0 = l.getD j 0 := by
  simp [List.getD, List.getElem?_set_ne h]

theorem getD_replicate_zero (n j : Nat) :
    (List.replicate n (0 : Nat)).getD j 0 = 0 := by
  simp [List.getD, List.getElem?_replicate]
  split <;> rfl

theorem getD_map_lt {α β : Type} (f : α → β) (l : List α) (i : Nat)
    (d : α) (d' : β) (hi : i < l.length) :
    (l.map f).getD i d' = f (l.getD i d) := by
  rw [List.getD_eq_getElem _ _ (by simpa using hi), List.getElem_map,
    List.getD_eq_getElem _ _ hi]

theorem rowcol_inj (w x x' y y' : Nat) (hx : x < w) (hx' : x' < w)
    (h : y * w + x = y' * w + x') : y = y' ∧ x = x' := by
  have h1 : y ≤ y' := by
    by_contra hc
    push_neg at hc
    have hm := Nat.mul_le_mul_right w (Nat.succ_le_of_lt hc)
    rw [Nat.succ_mul] at hm
    omega
  have h2 : y' ≤ y := by
    by_contra hc
    push_neg at hc
    have hm := Nat.mul_le_mul_right w (Nat.succ_le_of_lt hc)
    rw [Nat.succ_mul] at hm
    omega
  have hyy : y = y' := le_antisymm h1 h2
  subst hyy
  omega

theorem pos_inj (w x x' y y' c c' : Nat) (hx : x < w) (hx' : x' < w)
    (hc : c < 4) (hc' : c' < 4)
    (h : (y * w + x) * 4 + c = (y' * w + x') * 4 + c') :
    y = y' ∧ x = x' ∧ c = c' := by
  have hab : y * w + x = y' * w + x' ∧ c = c' := by omega
  obtain ⟨hyx, hcc⟩ := hab
  obtain ⟨hy, hxx⟩ := rowcol_inj w x x' y y' hx hx' hyx
  exact ⟨hy, hxx, hcc⟩

theorem pos_bound (w h x y : Nat) (hx : x < w) (hy : y < h) :
    (y * w + x) * 4 + 3 < w * h * 4 := by
  have hm := Nat.mul_le_mul_right w (Nat.succ_le_of_lt hy)
  rw [Nat.succ_mul] at hm
  have hcomm : h * w = w * h := Nat.mul_comm h w
  omega

theorem setPix_length (palette out : List Nat) (dst b : Nat) :
    (setPix palette out dst b).length = out.length := by
  simp [setPix]

theorem writePost_length (palette : List Nat) (w x : Nat) :
    ∀ (pixels : List Nat) (start : Nat) (out : List Nat),
      (writePost palette w x start pixels out).length = out.length := by
  intro pixels
  induction pixels with
  | nil => intro start out; rfl
  | cons b rest ih =>
    intro start out
    rw [writePost, ih, setPix_length]

theorem renderCol_length (palette : List Nat) (w x : Nat) :
    ∀ (posts : List Post) (out : List Nat),
      (renderCol palette w x posts out).length = out.length := by
  intro posts
  induction posts with
  | nil => intro out; rfl
  | cons p rest ih =>
    intro out
    rw [renderCol, ih, writePost_length]

theorem renderColsIdx_length (palette : List Nat) (w : Nat)
    (cols : List (List Post)) :
    ∀ (n x : Nat) (out : List Nat), w - x ≤ n →
      (renderColsIdx palette w cols x out).length = out.length := by
  intro n
  induction n with
  | zero =>
    intro x out hn
    rw [renderColsIdx, if_neg (by omega)]
  | succ n ih =>
    intro x out hn
    rw [renderColsIdx]
    by_cases hx : x < w
    · rw [if_pos hx, ih (x + 1) _ (by omega), renderCol_length]
    · rw [if_neg hx]

theorem set4_getD_at (out : List Nat) (dst r g b' : Nat)
    (h3 : dst + 3 < out.length) :
    ∀ c, c < 4 →
      ((((out.set dst r).set (dst + 1) g).set (dst + 2) b').set (dst + 3)
          (16 : Nat)).getD (dst + c) 0 =
        ([r, g, b', 16] : List Nat).getD c 0 := by
  intro c hc
  interval_cases c
  · rw [getD_set_ne _ (dst + 3) (dst + 0) 16 (by omega),
      getD_set_ne _ (dst + 2) (dst + 0) b' (by omega),
      getD_set_ne _ (dst + 1) (dst + 0) g (by omega),
      show dst + 0 = dst from rfl,
      getD_set_eq out dst r (by omega)]
    rfl
  · rw [getD_set_ne _ (dst + 3) (dst + 1) 16 (by omega),
      getD_set_ne _ (dst + 2) (dst + 1) b' (by omega),
      getD_set_eq _ (dst + 1) g (by simp [List.length_set]; omega)]
    rfl
  · rw [getD_set_ne _ (dst + 3) (dst + 2) 16 (by omega),
      getD_set_eq _ (dst + 2) b' (by simp [List.length_set]; omega)]
    rfl
  · rw [getD_set_eq _ (dst + 3) 16 (by simp [List.length_set]; omega)]
    rfl

theorem setPix_getD (palette out : List Nat) (w h x x' y ys c b : Nat)
    (hout : out.length = w * h * 4) (hx : x < w) (hys : ys < h)
    (hx' : x' < w) (_hy : y < h) (hc : c < 4) :
    (setPix palette out ((ys * w + x) * 4) b).getD ((y * w + x') * 4 + c) 0 =
      if x' = x ∧ y = ys then pixelColor palette b c
      else out.getD ((y * w + x') * 4 + c) 0 := by
  have hdst : (ys * w + x) * 4 + 3 < out.length := by
    rw [hout]; exact pos_bound w h x ys hx hys
  by_cases hcase : x' = x ∧ y = ys
  · obtain ⟨hx1, hy1⟩ := hcase
    subst hx1; subst hy1
    rw [if_pos ⟨rfl, rfl⟩]
    unfold setPix
    rw [set4_getD_at out ((y * w + x') * 4) _ _ _ hdst c hc]
    interval_cases c <;> simp [pixelColor]
  · rw [if_neg hcase]
    have hne : ∀ k, k < 4 → (ys * w + x) * 4 + k ≠ (y * w + x') * 4 + c := by
      intro k hk he
      obtain ⟨h1, h2, h3⟩ := pos_inj w x x' ys y k c hx hx' hk hc he
      exact hcase ⟨h2.symm, h1.symm⟩
    unfold setPix
    rw [getD_set_ne _ ((ys * w + x) * 4 + 3) ((y * w + x') * 4 + c) 16
        (hne 3 (by omega)),
      getD_set_ne _ ((ys * w + x) * 4 + 2) ((y * w + x') * 4 + c) _
        (hne 2 (by omega)),
      getD_set_ne _ ((ys * w + x) * 4 + 1) ((y * w + x') * 4 + c) _
        (hne 1 (by omega)),
      getD_set_ne _ ((ys * w + x) * 4) ((y * w + x') * 4 + c) _
        (by simpa using hne 0 (by omega))]

theorem writePost_getD (palette : List Nat) (w h x : Nat) (hx : x < w) :
    ∀ (pixels : List Nat) (start : Nat) (out : List Nat) (x' y c : Nat),
      start + pixels.length ≤ h → out.length = w * h * 4 →
      x' < w → y < h → c < 4 →
      (writePost palette w x start pixels out).getD ((y * w + x') * 4 + c) 0 =
        if x' = x ∧ start ≤ y ∧ y < start + pixels.length then
          pixelColor palette (pixels.getD (y - start) 0) c
        else out.getD ((y * w + x') * 4 + c) 0 := by
  intro pixels
  induction pixels with
  | nil =>
    intro start out x' y c hrange hout hx' hy hc
    rw [writePost, if_neg (by simp only [List.length_nil]; omega)]
  | cons b rest ih =>
    intro start out x' y c hrange hout hx' hy hc
    simp only [List.length_cons] at hrange
    have hs : start < h := by omega
    rw [writePost]
    rw [ih (start + 1) (setPix palette out ((start * w + x) * 4) b) x' y c
      (by omega) (by rw [setPix_length]; exact hout) hx' hy hc]
    by_cases hcaseA : x' = x ∧ start + 1 ≤ y ∧ y < start + 1 + rest.length
    · obtain ⟨ha1, ha2, ha3⟩ := hcaseA
      rw [if_pos ⟨ha1, ha2, ha3⟩,
        if_pos (show x' = x ∧ start ≤ y ∧ y < start + (b :: rest).length from
          ⟨ha1, by omega, by simp only [List.length_cons]; omega⟩)]
      have hys : y - start = (y - (start + 1)) + 1 := by omega
      rw [hys, List.getD_cons_succ]
    · rw [if_neg hcaseA]
      rw [setPix_getD palette out w h x x' y start c b hout hx hs hx' hy hc]
      by_cases hcaseB : x' = x ∧ y = start
      · obtain ⟨hb1, hb2⟩ := hcaseB
        rw [if_pos ⟨hb1, hb2⟩,
          if_pos (show x' = x ∧ start ≤ y ∧ y < start + (b :: rest).length from
            ⟨hb1, by omega, by simp only [List.length_cons]; omega⟩)]
        subst hb2
        simp
      · rw [if_neg hcaseB,
          if_neg (show ¬(x' = x ∧ start ≤ y ∧ y < start + (b :: rest).length) by
            simp only [List.length_cons]
            rintro ⟨hc1, hc2, hc3⟩
            rcases Nat.lt_or_ge y (start + 1) with hlt | hge
            · exact hcaseB ⟨hc1, by omega⟩
            · exact hcaseA ⟨hc1, by omega, by omega⟩)]

theorem postAt_eq_override (y : Nat) (posts : List Post) :
    ∀ acc : Option Nat,
      List.foldl (fun a (p : Post) =>
        if p.1 ≤ y ∧ y < p.1 + p.2.length then some (p.2.getD (y - p.1) 0)
        else a) acc posts =
      match postAt posts y with
      | some b => some b
      | none => acc := by
  induction posts with
  | nil => intro acc; rfl
  | cons p rest ih =>
    intro acc
    rw [List.foldl_cons, ih]
    have hcons : postAt (p :: rest) y =
        match postAt rest y with
        | some b => some b
        | none => if p.1 ≤ y ∧ y < p.1 + p.2.length then
            some (p.2.getD (y - p.1) 0) else none := by
      unfold postAt
      rw [List.foldl_cons]
      exact ih _
    rw [hcons]
    rcases postAt rest y with _ | b
    · dsimp only
      by_cases hcov : p.1 ≤ y ∧ y < p.1 + p.2.length
      · rw [if_pos hcov, if_pos hcov]
      · rw [if_neg hcov, if_neg hcov]
    · rfl

theorem postAt_cons (p : Post) (posts : List Post) (y : Nat) :
    postAt (p :: posts) y =
      match postAt posts y with
      | some b => some b
      | none => if p.1 ≤ y ∧ y < p.1 + p.2.length then
          some (p.2.getD (y - p.1) 0) else none := by
  unfold postAt
  rw [List.foldl_cons]
  exact postAt_eq_override y posts _

theorem renderCol_getD (palette : List Nat) (w h x : Nat) (hx : x < w) :
    ∀ (posts : List Post) (out : List Nat) (x' y c : Nat),
      (∀ p ∈ posts, p.1 + p.2.length ≤ h) → out.length = w * h * 4 →
      x' < w → y < h → c < 4 →
      (renderCol palette w x posts out).getD ((y * w + x') * 4 + c) 0 =
        match postAt posts y with
        | some b => if x' = x then pixelColor palette b c
                    else out.getD ((y * w + x') * 4 + c) 0
        | none => out.getD ((y * w + x') * 4 + c) 0 := by
  intro posts
  induction posts with
  | nil =>
    intro out x' y c hwf hout hx' hy hc
    rfl
  | cons p rest ih =>
    intro out x' y c hwf hout hx' hy hc
    have hp : p.1 + p.2.length ≤ h := hwf p (List.mem_cons_self p rest)
    rw [renderCol]
    rw [ih (writePost palette w x p.1 p.2 out) x' y c
      (fun q hq => hwf q (List.mem_cons_of_mem p hq))
      (by rw [writePost_length]; exact hout) hx' hy hc]
    rw [writePost_getD palette w h x hx p.2 p.1 out x' y c hp hout hx' hy hc]
    rw [postAt_cons]
    rcases postAt rest y with _ | b
    · dsimp only
      by_cases hcov : p.1 ≤ y ∧ y < p.1 + p.2.length
      · rw [if_pos hcov]
        dsimp only
        by_cases hxx : x' = x
        · rw [if_pos (⟨hxx, hcov.1, hcov.2⟩ :
            x' = x ∧ p.1 ≤ y ∧ y < p.1 + p.2.length), if_pos hxx]
        · rw [if_neg (by rintro ⟨h1, -⟩; exact hxx h1), if_neg hxx]
      · rw [if_neg hcov]
        dsimp only
        rw [if_neg (by rintro ⟨-, h2, h3⟩; exact hcov ⟨h2, h3⟩)]
    · dsimp only
      by_cases hxx : x' = x
      · subst hxx
        rw [if_pos rfl, if_pos rfl]
      · rw [if_neg hxx, if_neg hxx,
          if_neg (by rintro ⟨h1, -⟩; exact hxx h1)]

theorem renderColsIdx_getD (palette : List Nat) (w h : Nat)
    (cols : List (List Post))
    (hwf : ∀ i, ∀ p ∈ cols.getD i [], p.1 + p.2.length ≤ h) :
    ∀ (n x0 : Nat) (out : List Nat) (x' y c : Nat), w - x0 ≤ n →
      out.length = w * h * 4 → x' < w → y < h → c < 4 →
      (renderColsIdx palette w cols x0 out).getD ((y * w + x') * 4 + c) 0 =
        if x0 ≤ x' then
          match postAt (cols.getD x' []) y with
          | some b => pixelColor palette b c
          | none => out.getD ((y * w + x') * 4 + c) 0
        else out.getD ((y * w + x') * 4 + c) 0 := by
  intro n
  induction n with
  | zero =>
    intro x0 out x' y c hn hout hx' hy hc
    rw [renderColsIdx, if_neg (by omega), if_neg (by omega)]
  | succ n ih =>
    intro x0 out x' y c hn hout hx' hy hc
    rw [renderColsIdx]
    by_cases hx0 : x0 < w
    · rw [if_pos hx0]
      rw [ih (x0 + 1) (renderCol palette w x0 (cols.getD x0 []) out) x' y c
        (by omega) (by rw [renderCol_length]; exact hout) hx' hy hc]
      by_cases hge : x0 + 1 ≤ x'
      · rw [if_pos hge, if_pos (by omega)]
        rcases postAt (cols.getD x' []) y with _ | b
        · dsimp only
          rw [renderCol_getD palette w h x0 hx0 (cols.getD x0 []) out x' y c
            (hwf x0) hout hx' hy hc]
          rcases postAt (cols.getD x0 []) y with _ | b0
          · rfl
          · dsimp only
            rw [if_neg (by omega)]
        · rfl
      · rw [if_neg hge]
        rw [renderCol_getD palette w h x0 hx0 (cols.getD x0 []) out x' y c
          (hwf x0) hout hx' hy hc]
        by_cases hx0' : x' = x0
        · subst hx0'
          rw [if_pos (le_refl x')]
          rcases postAt (cols.getD x' []) y with _ | b0
          · rfl
          · dsimp only
            rw [if_pos rfl]
        · rw [if_neg (by omega)]
          rcases postAt (cols.getD x0 []) y with _ | b0
          · rfl
          · dsimp only
            rw [if_neg hx0']
    · rw [if_neg hx0, if_neg (by omega)]

theorem drawPost_ok (data palette : List Nat) (w h x : Nat)
    (hpal : palette.length = 768) (hx : x < w) :
    ∀ (pixels : List Nat) (start pos : Nat) (out : List Nat),
      (∀ b ∈ pixels, b < 256) →
      start + pixels.length ≤ h →
      out.length = w * h * 4 →
      pos + pixels.length ≤ data.length →
      (∀ k, k < pixels.length → data.getD (pos + k) 0 = pixels.getD k 0) →
      drawPost data palette w x pixels.length start pos out =
        .ok (writePost palette w x start pixels out) := by
  intro pixels
  induction pixels with
  | nil => intro start pos out _ _ _ _ _; rfl
  | cons b rest ih =>
    intro start pos out hbytes hrange hout hposlen hdata
    simp only [List.length_cons] at hrange hposlen
    have hb : b < 256 := hbytes b (List.mem_cons_self b rest)
    have hs : start < h := by omega
    have hb3 : (start * w + x) * 4 + 3 < w * h * 4 := pos_bound w h x start hx hs
    have hd0 : data.getD pos 0 = b := by
      have h0 := hdata 0 (by simp)
      simpa using h0
    have hidx : idx data pos = .ok b := by
      rw [idx, if_pos (show pos < data.length by omega), hd0]
    have h1 : idx palette (b * 3) = .ok (palette.getD (b * 3) 0) := by
      rw [idx, if_pos (by omega)]
    have h2 : idx palette (b * 3 + 1) = .ok (palette.getD (b * 3 + 1) 0) := by
      rw [idx, if_pos (by omega)]
    have h3 : idx palette (b * 3 + 2) = .ok (palette.getD (b * 3 + 2) 0) := by
      rw [idx, if_pos (by omega)]
    have hset1 : setIdx out ((start * w + x) * 4) (palette.getD (b * 3) 0) =
        .ok (out.set ((start * w + x) * 4) (palette.getD (b * 3) 0)) := by
      rw [setIdx, if_pos (by omega)]
    have hset2 : setIdx (out.set ((start * w + x) * 4) (palette.getD (b * 3) 0))
        ((start * w + x) * 4 + 1) (palette.getD (b * 3 + 1) 0) =
        .ok ((out.set ((start * w + x) * 4) (palette.getD (b * 3) 0)).set
          ((start * w + x) * 4 + 1) (palette.getD (b * 3 + 1) 0)) := by
      rw [setIdx, if_pos (by simp only [List.length_set]; omega)]
    have hset3 : setIdx ((out.set ((start * w + x) * 4)
          (palette.getD (b * 3) 0)).set
          ((start * w + x) * 4 + 1) (palette.getD (b * 3 + 1) 0))
        ((start * w + x) * 4 + 2) (palette.getD (b * 3 + 2) 0) =
        .ok (((out.set ((start * w + x) * 4) (palette.getD (b * 3) 0)).set
          ((start * w + x) * 4 + 1) (palette.getD (b * 3 + 1) 0)).set
          ((start * w + x) * 4 + 2) (palette.getD (b * 3 + 2) 0)) := by
      rw [setIdx, if_pos (by simp only [List.length_set]; omega)]
    have hset4 : setIdx (((out.set ((start * w + x) * 4)
          (palette.getD (b * 3) 0)).set
          ((start * w + x) * 4 + 1) (palette.getD (b * 3 + 1) 0)).set
          ((start * w + x) * 4 + 2) (palette.getD (b * 3 + 2) 0))
        ((start * w + x) * 4 + 3) 16 =
        .ok ((((out.set ((start * w + x) * 4) (palette.getD (b * 3) 0)).set
          ((start * w + x) * 4 + 1) (palette.getD (b * 3 + 1) 0)).set
          ((start * w + x) * 4 + 2) (palette.getD (b * 3 + 2) 0)).set
          ((start * w + x) * 4 + 3) 16) := by
      rw [setIdx, if_pos (by simp only [List.length_set]; omega)]
    rw [List.length_cons, drawPost, hidx]
    dsimp only
    rw [h1]
    dsimp only
    rw [hset1]
    dsimp only
    rw [h2]
    dsimp only
    rw [hset2]
    dsimp only
    rw [h3]
    dsimp only
    rw [hset3]
    dsimp only
    rw [hset4]
    dsimp only
    rw [writePost]
    have hbytes2 : ∀ q ∈ rest, q < 256 :=
      fun q hq => hbytes q (List.mem_cons_of_mem b hq)
    have hdata2 : ∀ k, k < rest.length →
        data.getD (pos + 1 + k) 0 = rest.getD k 0 := by
      intro k hk
      have hk1 := hdata (k + 1) (by simp only [List.length_cons]; omega)
      rw [show pos + (k + 1) = pos + 1 + k by omega] at hk1
      simpa [List.getD_cons_succ] using hk1
    exact ih (start + 1) (pos + 1)
      ((((out.set ((start * w + x) * 4) (palette.getD (b * 3) 0)).set
        ((start * w + x) * 4 + 1) (palette.getD (b * 3 + 1) 0)).set
        ((start * w + x) * 4 + 2) (palette.getD (b * 3 + 2) 0)).set
        ((start * w + x) * 4 + 3) 16)
      hbytes2 (by omega) (by simp only [List.length_set]; omega) (by omega)
      hdata2

theorem encodePost_length (p : Post) : (encodePost p).length = p.2.length + 4 := by
  simp [encodePost]

theorem encodeCol_nil : encodeCol ([] : List Post) = [255] := rfl

theorem encodeCol_cons (p : Post) (rest : List Post) :
    encodeCol (p :: rest) = encodePost p ++ encodeCol rest := by
  simp [encodeCol, List.map_cons, List.flatten_cons, List.append_assoc]

theorem encodeCol_length_pos (posts : List Post) :
    1 ≤ (encodeCol posts).length := by
  cases posts with
  | nil => rw [encodeCol_nil]; simp
  | cons p rest =>
    rw [encodeCol_cons]
    simp [encodePost_length]
    omega

theorem encodePost_getD_pix (p : Post) (k : Nat) (hk : k < p.2.length) :
    (encodePost p).getD (k + 3) 0 = p.2.getD k 0 := by
  show (p.1 :: p.2.length :: 0 :: (p.2 ++ [0])).getD (k + 3) 0 = p.2.getD k 0
  simp only [List.getD_cons_succ]
  exact List.getD_append p.2 [0] 0 k hk

theorem decodeColumn_encoded (data palette : List Nat) (w h x : Nat)
    (hpal : palette.length = 768) (hx : x < w) :
    ∀ (posts : List Post) (off : Nat) (out : List Nat),
      (∀ p ∈ posts, PostWF h p) →
      out.length = w * h * 4 →
      off + (encodeCol posts).length ≤ data.length →
      (∀ j, j < (encodeCol posts).length →
        data.getD (off + j) 0 = (encodeCol posts).getD j 0) →
      decodeColumn data palette w x off out =
        .ok (renderCol palette w x posts out) := by
  intro posts
  induction posts with
  | nil =>
    intro off out _ hout hlen hseg
    rw [encodeCol_nil] at hlen hseg
    have h255 : data.getD off 0 = 255 := by
      have h0 := hseg 0 (by simp)
      simpa using h0
    rw [decodeColumn, dif_neg (show ¬data.length ≤ off by simp at hlen; omega),
      if_pos h255]
    rfl
  | cons p rest ih =>
    intro off out hwf hout hlen hseg
    obtain ⟨hstart, hplen, hrange, hbytes⟩ := hwf p (List.mem_cons_self p rest)
    have hec : encodeCol (p :: rest) = encodePost p ++ encodeCol rest :=
      encodeCol_cons p rest
    have heclen : (encodeCol (p :: rest)).length =
        (p.2.length + 4) + (encodeCol rest).length := by
      rw [hec, List.length_append, encodePost_length]
    have hrest1 : 1 ≤ (encodeCol rest).length := encodeCol_length_pos rest
    have hEj : ∀ j, j < (encodePost p).length →
        (encodeCol (p :: rest)).getD j 0 = (encodePost p).getD j 0 := by
      intro j hj
      rw [hec]
      exact List.getD_append _ _ 0 j hj
    have hd_off : data.getD off 0 = p.1 := by
      have h0 := hseg 0 (by omega)
      rw [hEj 0 (by rw [encodePost_length]; omega)] at h0
      simpa [encodePost] using h0
    have hd_n : data.getD (off + 1) 0 = p.2.length := by
      have h1 := hseg 1 (by omega)
      rw [hEj 1 (by rw [encodePost_length]; omega)] at h1
      simpa [encodePost] using h1
    have hidx1 : idx data (off + 1) = .ok p.2.length := by
      rw [idx, if_pos (show off + 1 < data.length by omega), hd_n]
    have hpix : ∀ k, k < p.2.length →
        data.getD (off + 3 + k) 0 = p.2.getD k 0 := by
      intro k hk
      have hp3 := hseg (k + 3) (by omega)
      rw [hEj (k + 3) (by rw [encodePost_length]; omega)] at hp3
      rw [encodePost_getD_pix p k hk] at hp3
      rw [show off + (k + 3) = off + 3 + k by omega] at hp3
      exact hp3
    rw [decodeColumn, dif_neg (show ¬data.length ≤ off by omega),
      if_neg (by rw [hd_off]; omega), hidx1]
    dsimp only
    rw [hd_off]
    rw [drawPost_ok data palette w h x hpal hx p.2 p.1 (off + 3) out hbytes
      hrange hout (by omega) hpix]
    dsimp only
    rw [renderCol]
    have hseg2 : ∀ j, j < (encodeCol rest).length →
        data.getD (off + 3 + p.2.length + 1 + j) 0 =
          (encodeCol rest).getD j 0 := by
      intro j hj
      have hs2 := hseg ((p.2.length + 4) + j) (by omega)
      rw [hec, List.getD_append_right _ _ _ _
        (by rw [encodePost_length]; omega)] at hs2
      rw [encodePost_length] at hs2
      rw [show p.2.length + 4 + j - (p.2.length + 4) = j by omega] at hs2
      rw [show off + (p.2.length + 4 + j) = off + 3 + p.2.length + 1 + j
        by omega] at hs2
      exact hs2
    exact ih (off + 3 + p.2.length + 1) (writePost palette w x p.1 p.2 out)
      (fun q hq => hwf q (List.mem_cons_of_mem p hq))
      (by rw [writePost_length]; exact hout)
      (by omega) hseg2

theorem decodeColumns_encoded (data palette : List Nat) (w h : Nat)
    (col_offsets : List Nat) (cols : List (List Post))
    (H : ∀ x, x < w → ∀ out : List Nat, out.length = w * h * 4 →
      decodeColumn data palette w x (col_offsets.getD x 0) out =
        .ok (renderCol palette w x (cols.getD x []) out)) :
    ∀ (n x0 : Nat) (out : List Nat), w - x0 ≤ n → out.length = w * h * 4 →
      decodeColumns data palette w col_offsets x0 out =
        .ok (renderColsIdx palette w cols x0 out) := by
  intro n
  induction n with
  | zero =>
    intro x0 out hn hout
    rw [decodeColumns, if_neg (by omega), renderColsIdx, if_neg (by omega)]
  | succ n ih =>
    intro x0 out hn hout
    rw [decodeColumns, renderColsIdx]
    by_cases hx0 : x0 < w
    · rw [if_pos hx0, if_pos hx0, H x0 hx0 out hout]
      dsimp only
      exact ih (x0 + 1) _ (by omega) (by rw [renderCol_length]; exact hout)
    · rw [if_neg hx0, if_neg hx0]

theorem colOffsets_length (base : Nat) :
    ∀ bodies : List (List Nat), (colOffsets base bodies).length = bodies.length := by
  intro bodies
  induction bodies generalizing base with
  | nil => rfl
  | cons b rest ih =>
    rw [colOffsets, List.length_cons, ih, List.length_cons]

theorem colOffsets_getD_le :
    ∀ (bodies : List (List Nat)) (base x : Nat), x < bodies.length →
      (colOffsets base bodies).getD x 0 ≤ base + bodies.flatten.length := by
  intro bodies
  induction bodies with
  | nil => intro base x hx; simp at hx
  | cons b rest ih =>
    intro base x hx
    rw [colOffsets]
    cases x with
    | zero => simp
    | succ x =>
      rw [List.getD_cons_succ]
      have hih := ih (base + b.length) x (by simpa using hx)
      simp only [List.flatten_cons, List.length_append]
      omega

theorem flatten_segment :
    ∀ (bodies : List (List Nat)) (pre : List Nat) (x j : Nat),
      x < bodies.length → j < (bodies.getD x []).length →
      (pre ++ bodies.flatten).getD
          ((colOffsets pre.length bodies).getD x 0 + j) 0 =
        (bodies.getD x []).getD j 0 := by
  intro bodies
  induction bodies with
  | nil => intro pre x j hx _; simp at hx
  | cons b rest ih =>
    intro pre x j hx hj
    rw [colOffsets]
    cases x with
    | zero =>
      show (pre ++ (b :: rest).flatten).getD (pre.length + j) 0 = b.getD j 0
      have hj' : j < b.length := by simpa using hj
      rw [List.flatten_cons,
        List.getD_append_right pre (b ++ rest.flatten) 0 (pre.length + j)
          (by omega),
        show pre.length + j - pre.length = j from by omega,
        List.getD_append b rest.flatten 0 j hj']
    | succ x =>
      rw [List.getD_cons_succ, List.getD_cons_succ]
      rw [List.flatten_cons, ← List.append_assoc]
      rw [show pre.length + b.length = (pre ++ b).length by
        rw [List.length_append]]
      exact ih (pre ++ b) x j (by simpa using hx) hj

theorem flatten_segment_len :
    ∀ (bodies : List (List Nat)) (pre : List Nat) (x : Nat),
      x < bodies.length →
      (colOffsets pre.length bodies).getD x 0 + (bodies.getD x []).length ≤
        (pre ++ bodies.flatten).length := by
  intro bodies
  induction bodies with
  | nil => intro pre x hx; simp at hx
  | cons b rest ih =>
    intro pre x hx
    rw [colOffsets]
    cases x with
    | zero =>
      show pre.length + b.length ≤ (pre ++ (b :: rest).flatten).length
      simp only [List.flatten_cons, List.length_append]
      omega
    | succ x =>
      rw [List.getD_cons_succ, List.getD_cons_succ]
      have hih := ih (pre ++ b) x (by simpa using hx)
      rw [List.length_append] at hih
      simp only [List.flatten_cons, List.length_append] at hih ⊢
      omega

theorem readU32LE_header (offs rest : List Nat) (x : Nat)
    (hx : x < offs.length) (hlt : offs.getD x 0 < 4294967296) :
    readU32LE ((offs.map u32le).flatten ++ rest) (x * 4) = offs.getD x 0 := by
  have hblocks : ∀ bl ∈ offs.map u32le, bl.length = 4 := by
    intro bl hbl
    obtain ⟨o, _, rfl⟩ := List.mem_map.1 hbl
    rfl
  have hlen : ((offs.map u32le).flatten).length = offs.length * 4 := by
    rw [flatten_length_uniform _ 4 hblocks, List.length_map]
  have hget : ∀ k, k < 4 →
      ((offs.map u32le).flatten ++ rest).getD (x * 4 + k) 0 =
        (u32le (offs.getD x 0)).getD k 0 := by
    intro k hk
    rw [List.getD_append _ _ _ _ (by rw [hlen]; omega),
      flatten_getD_uniform 4 (offs.map u32le) x k hblocks
        (by simpa using hx) hk,
      getD_map_lt u32le offs x 0 [] hx]
  have h0 : ((offs.map u32le).flatten ++ rest).getD (x * 4) 0 =
      (u32le (offs.getD x 0)).getD 0 0 := by
    have := hget 0 (by omega)
    simpa using this
  rw [readU32LE, h0, hget 1 (by omega), hget 2 (by omega), hget 3 (by omega)]
  show offs.getD x 0 % 256 + offs.getD x 0 / 256 % 256 * 256 +
      offs.getD x 0 / 65536 % 256 * 65536 +
      offs.getD x 0 / 16777216 % 256 * 16777216 = offs.getD x 0
  omega

theorem encode_unfold (cols : List (List Post)) :
    encode_titlepic cols =
      ((colOffsets (4 * cols.length) (cols.map encodeCol)).map u32le).flatten ++
        (cols.map encodeCol).flatten := rfl

theorem encode_header_len (cols : List (List Post)) :
    (((colOffsets (4 * cols.length) (cols.map encodeCol)).map u32le).flatten).length =
      cols.length * 4 := by
  have hblocks : ∀ bl ∈ (colOffsets (4 * cols.length)
      (cols.map encodeCol)).map u32le, bl.length = 4 := by
    intro bl hbl
    obtain ⟨o, _, rfl⟩ := List.mem_map.1 hbl
    rfl
  rw [flatten_length_uniform _ 4 hblocks, List.length_map, colOffsets_length,
    List.length_map]

theorem encode_length (cols : List (List Post)) :
    (encode_titlepic cols).length =
      cols.length * 4 + ((cols.map encodeCol).flatten).length := by
  rw [encode_unfold, List.length_append, encode_header_len]

theorem encode_offset_bound (cols : List (List Post)) (x : Nat)
    (hx : x < cols.length) :
    (colOffsets (4 * cols.length) (cols.map encodeCol)).getD x 0 ≤
      (encode_titlepic cols).length := by
  have hb := colOffsets_getD_le (cols.map encodeCol) (4 * cols.length) x
    (by rw [List.length_map]; exact hx)
  rw [encode_length]
  omega

theorem encode_readU32 (cols : List (List Post)) (x : Nat)
    (hx : x < cols.length)
    (hfit : (encode_titlepic cols).length < 4294967296) :
    readU32LE (encode_titlepic cols) (x * 4) =
      (colOffsets (4 * cols.length) (cols.map encodeCol)).getD x 0 := by
  rw [encode_unfold]
  exact readU32LE_header (colOffsets (4 * cols.length) (cols.map encodeCol))
    ((cols.map encodeCol).flatten) x
    (by rw [colOffsets_length, List.length_map]; exact hx)
    (by have := encode_offset_bound cols x hx; omega)

theorem encode_seg (cols : List (List Post)) (x j : Nat)
    (hx : x < cols.length) (hj : j < (encodeCol (cols.getD x [])).length) :
    (encode_titlepic cols).getD
        ((colOffsets (4 * cols.length) (cols.map encodeCol)).getD x 0 + j) 0 =
      (encodeCol (cols.getD x [])).getD j 0 := by
  have hbx : (cols.map encodeCol).getD x [] = encodeCol (cols.getD x []) :=
    getD_map_lt encodeCol cols x [] [] hx
  have hseg := flatten_segment (cols.map encodeCol)
    (((colOffsets (4 * cols.length) (cols.map encodeCol)).map u32le).flatten)
    x j (by rw [List.length_map]; exact hx) (by rw [hbx]; exact hj)
  rw [hbx] at hseg
  rw [encode_unfold]
  rw [show (((colOffsets (4 * cols.length) (cols.map encodeCol)).map
      u32le).flatten).length = 4 * cols.length by
    rw [encode_header_len]; omega] at hseg
  exact hseg

theorem encode_seg_len (cols : List (List Post)) (x : Nat)
    (hx : x < cols.length) :
    (colOffsets (4 * cols.length) (cols.map encodeCol)).getD x 0 +
        (encodeCol (cols.getD x [])).length ≤
      (encode_titlepic cols).length := by
  have hbx : (cols.map encodeCol).getD x [] = encodeCol (cols.getD x []) :=
    getD_map_lt encodeCol cols x [] [] hx
  have hlen := flatten_segment_len (cols.map encodeCol)
    (((colOffsets (4 * cols.length) (cols.map encodeCol)).map u32le).flatten)
    x (by rw [List.length_map]; exact hx)
  rw [hbx] at hlen
  rw [show (((colOffsets (4 * cols.length) (cols.map encodeCol)).map
      u32le).flatten).length = 4 * cols.length by
    rw [encode_header_len]; omega] at hlen
  rw [encode_unfold]
  rw [List.length_append] at hlen ⊢
  exact hlen

/-- C2: for every 768-byte palette and every well-formed Primary-format
buffer built from a known post list per column (every post in range for the
picture height, every column 255-terminated inside the buffer — the buffer
`encode_titlepic cols`), `decode_titlepic` succeeds with a buffer of exactly
`width * height * 4` bytes in which every pixel covered by a post carries the
palette RGB of that post's index with alpha exactly 16 (`pixelColor`), and
every pixel no post wrote is `(0, 0, 0, 0)`. -/
theorem decode_titlepic_encode_correct (cols : List (List Post))
    (palette : List Nat) (height : Nat)
    (hpal : palette.length = 768)
    (hwf : ColsWF height cols)
    (hfit : (encode_titlepic cols).length < 4294967296) :
    ∃ out,
      decode_titlepic (encode_titlepic cols) palette cols.length height =
        .ok (some out) ∧
      out.length = cols.length * height * 4 ∧
      ∀ x y c, x < cols.length → y < height → c < 4 →
        out.getD ((y * cols.length + x) * 4 + c) 0 =
          match postAt (cols.getD x []) y with
          | some b => pixelColor palette b c
          | none => 0 := by
  have hcolH : ∀ x, x < cols.length → ∀ out : List Nat,
      out.length = cols.length * height * 4 →
      decodeColumn (encode_titlepic cols) palette cols.length x
        (((List.range cols.length).map
          (fun i => readU32LE (encode_titlepic cols) (i * 4))).getD x 0) out =
        .ok (renderCol palette cols.length x (cols.getD x []) out) := by
    intro x hx out hout
    have hoffx : ((List.range cols.length).map
        (fun i => readU32LE (encode_titlepic cols) (i * 4))).getD x 0 =
        (colOffsets (4 * cols.length) (cols.map encodeCol)).getD x 0 := by
      rw [getD_map_lt _ _ x 0 0 (by simpa using hx)]
      rw [show (List.range cols.length).getD x 0 = x from by
        rw [List.getD_eq_getElem _ _ (by simpa using hx)]
        simp]
      exact encode_readU32 cols x hx hfit
    rw [hoffx]
    have hmem : cols.getD x [] ∈ cols := by
      rw [List.getD_eq_getElem _ _ hx]
      exact List.getElem_mem _
    exact decodeColumn_encoded (encode_titlepic cols) palette cols.length
      height x hpal hx (cols.getD x [])
      ((colOffsets (4 * cols.length) (cols.map encodeCol)).getD x 0) out
      (fun p hp => hwf (cols.getD x []) hmem p hp) hout
      (encode_seg_len cols x hx)
      (fun j hj => encode_seg cols x j hx hj)
  refine ⟨renderColsIdx palette cols.length cols 0
    (List.replicate (cols.length * height * 4) 0), ?_, ?_, ?_⟩
  · rw [decode_titlepic, if_neg (by rw [encode_length]; omega)]
    show (match decodeColumns (encode_titlepic cols) palette cols.length
        ((List.range cols.length).map
          (fun i => readU32LE (encode_titlepic cols) (i * 4))) 0
        (List.replicate (cols.length * height * 4) 0) with
      | PanicOr.panic => PanicOr.panic
      | PanicOr.ok out => PanicOr.ok (some out)) =
      PanicOr.ok (some (renderColsIdx palette cols.length cols 0
        (List.replicate (cols.length * height * 4) 0)))
    rw [decodeColumns_encoded (encode_titlepic cols) palette cols.length height
      _ cols hcolH cols.length 0 _ (by omega) (by rw [List.length_replicate])]
  · rw [renderColsIdx_length palette cols.length cols cols.length 0 _ (by omega),
      List.length_replicate]
  · intro x y c hx hy hc
    have hwfcols : ∀ i, ∀ p ∈ cols.getD i [], p.1 + p.2.length ≤ height := by
      intro i p hp
      by_cases hi : i < cols.length
      · have hmem : cols.getD i [] ∈ cols := by
          rw [List.getD_eq_getElem _ _ hi]
          exact List.getElem_mem _
        exact (hwf (cols.getD i []) hmem p hp).2.2.1
      · rw [List.getD_eq_default _ _ (by omega)] at hp
        simp at hp
    rw [renderColsIdx_getD palette cols.length height cols hwfcols cols.length
      0 _ x y c (by omega) (by rw [List.length_replicate]) hx hy hc,
      if_pos (Nat.zero_le x)]
    rcases postAt (cols.getD x []) y with _ | b
    · dsimp only
      exact getD_replicate_zero _ _
    · rfl

theorem decode_titlepic_encode_correct_witness :
    ColsWF 1 [[(0, [1])], [(0, [1])]] ∧
    ∃ out,
      decode_titlepic (encode_titlepic [[(0, [1])], [(0, [1])]])
        ([0, 0, 0, 255, 0, 0] ++ List.replicate 762 0)
        ([[(0, [1])], [(0, [1])]] : List (List Post)).length 1 =
        PanicOr.ok (some out) :=
  ⟨by decide, by
    obtain ⟨out, h1, -, -⟩ := decode_titlepic_encode_correct
      [[(0, [1])], [(0, [1])]] ([0, 0, 0, 255, 0, 0] ++ List.replicate 762 0)
      1 (by norm_num [List.length_append, List.length_replicate]) (by decide)
      (by decide)
    exact ⟨out, h1⟩⟩
